import Mathlib

/-!
Verification of the natural-language specification of the BadgerDB B+ tree
index (`src/btree.cpp`) against a shallow embedding of its code.

The embedding models the paged file as a list of node values (`List Node`),
indexed by page id, page 0 being the meta page.  The buffer manager's
`allocPage` appends a fresh page at index `pages.length`; `readPage` is list
lookup.  The integer keys of the C++ code (`int`, 32-bit signed) are modelled
as `Int`; no arithmetic is performed on keys by the insertion code, so no
wrap-around modelling is needed there (the single `lowValInt++` in
`startScan` is discussed at its definition).  The sentinel `MAX_INT`
(0x7FFFFFFF) is `MAXK` for keys and `MAXPAGE` for page ids.

Array-mutating `for` loops of the C++ code are translated loop-by-loop by
the three recursive helpers `fillLoop`, `copyLoop` and `shiftLoop`; each use
site notes the source lines it translates.  The recursion of
`BTreeIndex::insertNode` over the page graph is modelled with an explicit
fuel parameter (the C++ recursion is bounded by the tree height; every
theorem supplies fuel at least the height).
-/

namespace BadgerBT

/-- The sentinel key value `MAX_INT` = 0x7FFFFFFF (btree.h). -/
def MAXK : Int := 2147483647

/-- The sentinel page id: `(PageId) MAX_INT`, marking "no right sibling". -/
def MAXPAGE : Nat := 2147483647

/-- A record id: a (page, slot) pair (badgerdb `RecordId`). -/
structure RId where
  page : Nat
  slot : Nat
deriving DecidableEq, Repr

instance : Inhabited RId := ⟨⟨0, 0⟩⟩

/-- The `PageKeyPair<int>` struct returned by `insertLeaf` / `insertNode`:
`pair.set(pageNo, key)`. -/
structure PageKeyPair where
  pageNo : Nat
  key : Int
deriving DecidableEq, Repr

/-- One page of the index file, reinterpreted through one of the three
typed views of btree.h: `IndexMetaInfo`, `LeafNodeInt`, `NonLeafNodeInt`.
The meta view keeps only the two fields the code ever reads back
(`rootPageNo`, `rootIsLeaf`). -/
inductive Node where
  | meta (rootPageNo : Nat) (rootIsLeaf : Bool)
  | leaf (keyArray : List Int) (ridArray : List RId) (rightSibPageNo : Nat)
  | internal (keyArray : List Int) (pageNoArray : List Nat) (level : Int)
deriving DecidableEq, Repr

instance : Inhabited Node := ⟨.meta 0 false⟩

/-- `bufMgr->readPage`: look a page up by id.  Ids outside the file give the
(default) meta view, which no tree operation ever matches. -/
def getPage (ps : List Node) (p : Nat) : Node := ps.getD p (.meta 0 false)

/-- Writing a page back through its pinned frame. -/
def setPage (ps : List Node) (p : Nat) (n : Node) : List Node := ps.set p n

/-- Translation of `for (i = a; i < a + n; i++) xs[i] = v`. -/
def fillLoop (v : α) : Nat → Nat → List α → List α
  | _, 0, xs => xs
  | a, n+1, xs => fillLoop v (a+1) n (xs.set a v)

/-- Translation of `for (i = m; i < m + n; i++) dst[o + (i - m)] = src[i]`. -/
def copyLoop (src : List α) (dfl : α) : Nat → Nat → Nat → List α → List α
  | _, _, 0, dst => dst
  | m, o, n+1, dst => copyLoop src dfl (m+1) (o+1) n (dst.set o (src.getD m dfl))

/-- Translation of `for (i = lo + n - 1; i >= lo; i--) xs[i+1] = xs[i]`
(the downward shift loops; iterations are performed top index first, exactly
as in the source, so every read sees the original value). -/
def shiftLoop (dfl : α) (lo : Nat) : Nat → List α → List α
  | 0, xs => xs
  | n+1, xs => shiftLoop dfl lo n (xs.set (lo+n+1) (xs.getD (lo+n) dfl))

/-- Translation of `while (index < occupancy && arr[index] < k) index++`
(btree.cpp lines 460-465 and 309-314); the occupancy guard is the length of
the modelled array. -/
def findSlot (k : Int) : List Int → Nat
  | [] => 0
  | x :: xs => if x < k then findSlot k xs + 1 else 0

/-- Translation of `while (index < nodeOccupancy && keyArray[index] <= v)
index++` (the scan descent, btree.cpp lines 606-610). -/
def descIdx (v : Int) : List Int → Nat
  | [] => 0
  | x :: xs => if x ≤ v then descIdx v xs + 1 else 0

/-- `BTreeIndex::insertLeaf` (btree.cpp lines 453-556), for leaf occupancy
`L`.  Returns the updated file and the `PageKeyPair`: the sentinel pair
`(MAX_INT, MAX_INT)` when no split happened, else the new sibling page and
its first key.  The default branch covers the impossible case that the page
is not a leaf (the C++ cast presumes it is). -/
def insertLeaf (L : Nat) (ps : List Node) (pageNum : Nat) (k : Int) (rid : RId) :
    List Node × PageKeyPair :=
  match getPage ps pageNum with
  | .leaf karr rarr sib =>
    let index := findSlot k karr
    if karr.getD (L-1) MAXK ≠ MAXK then
      -- full leaf: split (lines 469-538)
      let splitID := ps.length
      -- allocPage; splitNode->rightSibPageNo = leaf->rightSibPageNo (line 478);
      -- the fresh page's arrays are uninitialized, modelled by replicate 0 /
      -- replicate default; the key fill loop (lines 481-484) overwrites them.
      let sibKeys0 := fillLoop MAXK 0 L (List.replicate L 0)
      let ps1 := ps ++ [Node.leaf (List.replicate L 0) (List.replicate L default) sib]
      let mid := (L - 1) / 2
      if index ≤ mid then
        -- lines 488-511
        let sibKeys := copyLoop karr MAXK mid 0 (L - mid) sibKeys0
        let sibRids := copyLoop rarr default mid 0 (L - mid) (List.replicate L default)
        let lKeys := ((fillLoop MAXK (mid+1) (L - (mid+1))
            (shiftLoop MAXK index (mid - index) karr))).set index k
        let lRids := (shiftLoop default index (mid - index) rarr).set index rid
        let ps2 := setPage (setPage ps1 splitID (.leaf sibKeys sibRids sib))
            pageNum (.leaf lKeys lRids splitID)
        (ps2, ⟨splitID, sibKeys.getD 0 MAXK⟩)
      else
        -- lines 512-534: mid++ first
        let mid2 := mid + 1
        let sibKeys := copyLoop karr MAXK index (index - mid2 + 1) (L - index)
            ((copyLoop karr MAXK mid2 0 (index - mid2) sibKeys0).set (index - mid2) k)
        let sibRids := copyLoop rarr default index (index - mid2 + 1) (L - index)
            ((copyLoop rarr default mid2 0 (index - mid2)
              (List.replicate L default)).set (index - mid2) rid)
        let lKeys := fillLoop MAXK mid2 (L - mid2) karr
        let ps2 := setPage (setPage ps1 splitID (.leaf sibKeys sibRids sib))
            pageNum (.leaf lKeys rarr splitID)
        (ps2, ⟨splitID, sibKeys.getD 0 MAXK⟩)
    else
      -- leaf not full (lines 540-550): shift right and insert
      let lKeys := (shiftLoop MAXK index (L - 1 - index) karr).set index k
      let lRids := (shiftLoop default index (L - 1 - index) rarr).set index rid
      (setPage ps pageNum (.leaf lKeys lRids sib), ⟨MAXPAGE, MAXK⟩)
  | _ => (ps, ⟨MAXPAGE, MAXK⟩)

/-- The tail of `BTreeIndex::insertNode` after the recursive child call
(btree.cpp lines 327-447), for node occupancy `N`: `index` is the descent
slot computed before the call, `split` the child's returned pair.  The page
is re-read, exactly as the C++ code keeps using its pinned pointer. -/
def handleChildSplit (N : Nat) (ps : List Node) (pageNum : Nat) (index : Nat)
    (split : PageKeyPair) : List Node × PageKeyPair :=
  match getPage ps pageNum with
  | .internal karr parr lvl =>
    if split.key = MAXK then
      -- child did not split (lines 442-446)
      (ps, ⟨MAXPAGE, MAXK⟩)
    else if karr.getD (N-1) MAXK ≠ MAXK then
      -- this node is full: split (lines 332-426)
      let splitID := ps.length
      let ps1 := ps ++ [Node.internal (List.replicate N 0) (List.replicate (N+1) 0) lvl]
      -- splitNode->level = node->level (line 342); key fill loop (lines 344-347)
      let sibKeys0 := fillLoop MAXK 0 N (List.replicate N 0)
      let mid := N / 2
      if index = mid then
        -- lines 353-369
        let sibKeys := copyLoop karr MAXK mid 0 (N - mid) sibKeys0
        let sibP := (copyLoop parr 0 (mid+1) 1 (N - mid)
            (List.replicate (N+1) 0)).set 0 split.pageNo
        let nKeys := fillLoop MAXK mid (N - mid) karr
        let ps2 := setPage (setPage ps1 splitID (.internal sibKeys sibP lvl))
            pageNum (.internal nKeys parr lvl)
        (ps2, ⟨splitID, split.key⟩)
      else if index < mid then
        -- lines 370-398
        let sibKeys := copyLoop karr MAXK mid 0 (N - mid) sibKeys0
        let sibP := (copyLoop parr 0 (mid+1) 1 (N - mid)
            (List.replicate (N+1) 0)).set 0 (parr.getD mid 0)
        let nKeys := ((fillLoop MAXK mid (N - mid)
            (shiftLoop MAXK index (mid - 1 - index) karr))).set index split.key
        let nP := (shiftLoop 0 (index+1) (mid - 1 - index) parr).set (index+1) split.pageNo
        let ps2 := setPage (setPage ps1 splitID (.internal sibKeys sibP lvl))
            pageNum (.internal nKeys nP lvl)
        (ps2, ⟨splitID, karr.getD (mid-1) MAXK⟩)
      else
        -- lines 399-424: pair takes keyArray[mid], then mid++
        let mid2 := mid + 1
        let sibKeys := copyLoop karr MAXK index (index - mid2 + 1) (N - index)
            ((copyLoop karr MAXK mid2 0 (index - mid2) sibKeys0).set (index - mid2) split.key)
        let sibP := copyLoop parr 0 (index+1) (index - mid2 + 2) (N - index)
            (((copyLoop parr 0 (mid2+1) 1 (index - mid2)
              (List.replicate (N+1) 0)).set (index - mid2 + 1) split.pageNo).set 0
                (parr.getD mid2 0))
        let nKeys := fillLoop MAXK (mid2 - 1) (N - (mid2 - 1)) karr
        let ps2 := setPage (setPage ps1 splitID (.internal sibKeys sibP lvl))
            pageNum (.internal nKeys parr lvl)
        (ps2, ⟨splitID, karr.getD mid MAXK⟩)
    else
      -- node not full (lines 427-439): shift keys/children right and insert
      let nKeys := (shiftLoop MAXK index (N - 1 - index) karr).set index split.key
      let nP := (shiftLoop 0 (index+1) (N - 1 - index) parr).set (index+1) split.pageNo
      (setPage ps pageNum (.internal nKeys nP lvl), ⟨MAXPAGE, MAXK⟩)
  | _ => (ps, ⟨MAXPAGE, MAXK⟩)

/-- `BTreeIndex::insertNode` (btree.cpp lines 302-448).  The C++ recursion
descends the page graph; the fuel argument bounds its depth (every theorem
supplies at least the tree height, so the fuel-exhausted branch is never
reached on well-formed trees). -/
def insertNodeGo (L N : Nat) (k : Int) (rid : RId) :
    Nat → List Node → Nat → List Node × PageKeyPair
  | 0, ps, _ => (ps, ⟨MAXPAGE, MAXK⟩)
  | fuel+1, ps, pageNum =>
    match getPage ps pageNum with
    | .internal karr parr lvl =>
      let index := findSlot k karr
      let child := parr.getD index 0
      let r := if lvl = 1 then insertLeaf L ps child k rid
               else insertNodeGo L N k rid fuel ps child
      handleChildSplit N r.1 pageNum index r.2
    | _ => (ps, ⟨MAXPAGE, MAXK⟩)

/-- Scan comparison operators (badgerdb `Operator`). -/
inductive Operator where
  | LT | LTE | GTE | GT
deriving DecidableEq, Repr

/-- The exceptions thrown by the scan interface. -/
inductive BTErr where
  | BadOpcodes | BadScanrange | NoSuchKeyFound | ScanNotInitialized | IndexScanCompleted
deriving DecidableEq, Repr

/-- The in-memory `BTreeIndex` state: the backing pages, the root bookkeeping
fields, the scan state fields, and the multiset of currently pinned pages
(`pins`, tracking the buffer manager's per-page pin counts). -/
structure BT where
  pages : List Node
  rootPageNum : Nat
  rootIsLeaf : Bool
  scanExecuting : Bool := false
  nextEntry : Nat := 0
  currentPageNum : Nat := 0
  lowValInt : Int := 0
  highValInt : Int := 0
  lowOp : Operator := .GT
  highOp : Operator := .LT
  pins : List Nat := []
deriving DecidableEq, Repr

/-- `BTreeIndex::insertEntry` (btree.cpp lines 226-296): dispatch to the
root, then grow a new root if the returned pair is a real split.  The meta
page (page 0) is updated with the new root and `rootIsLeaf = false`. -/
def insertEntry (L N : Nat) (st : BT) (k : Int) (rid : RId) : BT :=
  let r := if st.rootIsLeaf then insertLeaf L st.pages st.rootPageNum k rid
           else insertNodeGo L N k rid st.pages.length st.pages st.rootPageNum
  if r.2.key ≠ MAXK then
    -- lines 254-293: new root with one separator
    let pageNum := r.1.length
    let nKeys := fillLoop MAXK 1 (N-1) ((List.replicate N 0).set 0 r.2.key)
    let nP := ((List.replicate (N+1) 0).set 0 st.rootPageNum).set 1 r.2.pageNo
    let lvl : Int := if st.rootIsLeaf then 1 else 0
    let ps1 := r.1 ++ [Node.internal nKeys nP lvl]
    let ps2 := setPage ps1 0 (.meta pageNum false)
    { st with pages := ps2, rootPageNum := pageNum, rootIsLeaf := false }
  else { st with pages := r.1 }

/-- The creation branch of the constructor (btree.cpp lines 63-95): page 0 is
the meta page, page 1 the empty root leaf with all keys `MAX_INT` and no
right sibling. -/
def mkIndex (L : Nat) : BT :=
  { pages := [.meta 1 true, .leaf (List.replicate L MAXK) (List.replicate L default) MAXPAGE],
    rootPageNum := 1, rootIsLeaf := true }

/-- The bulk-load loop of the constructor: insert a list of (key, rid)
pairs in order. -/
def insertAll (L N : Nat) (st : BT) (ops : List (Int × RId)) : BT :=
  ops.foldl (fun s kr => insertEntry L N s kr.1 kr.2) st

/-- The descent loop of `BTreeIndex::startScan` (btree.cpp lines 600-621):
starting at an internal node, repeatedly pick child `pageNoArray[index]`
where `index` skips keys `<= lowValInt`, stopping after a node whose
`level == 1` has been traversed.  Fuel bounds the loop. -/
def scanDescend (ps : List Node) (v : Int) : Nat → Nat → Nat
  | 0, p => p
  | fuel+1, p =>
    match getPage ps p with
    | .internal karr parr lvl =>
      let nextP := parr.getD (descIdx v karr) 0
      if lvl = 1 then nextP else scanDescend ps v fuel nextP
    | _ => p

/-- `BTreeIndex::startScan` (btree.cpp lines 562-656).  On success the
returned state records the starting leaf and slot and holds the leaf's pin.
On failure the C++ code throws after unpinning everything it pinned; the
model returns the error (the low/high bound fields the C++ code writes
before a failing check are not observable through any modelled operation
while the scan stays inactive). -/
def startScan (L : Nat) (st : BT) (lo : Int) (lop : Operator) (hi : Int) (hop : Operator) :
    Except BTErr BT :=
  if lop ≠ .GT ∧ lop ≠ .GTE then .error .BadOpcodes
  else if hop ≠ .LT ∧ hop ≠ .LTE then .error .BadOpcodes
  else if lo > hi then .error .BadScanrange
  else
    -- lines 590-593: treat GT as GTE on lowValInt + 1 (signed overflow at
    -- lo = MAX_INT is undefined behaviour in the source; the model keeps
    -- exact integers and theorems about GT scans assume lo < MAX_INT)
    let lowV := if lop = .GT then lo + 1 else lo
    let p := if st.rootIsLeaf then st.rootPageNum
             else scanDescend st.pages lowV st.pages.length st.rootPageNum
    match getPage st.pages p with
    | .leaf karr _ _ =>
      let index := findSlot lowV karr
      if L ≤ index then .error .NoSuchKeyFound
      else if hop = .LT ∧ hi ≤ karr.getD index MAXK then .error .NoSuchKeyFound
      else if hop = .LTE ∧ hi < karr.getD index MAXK then .error .NoSuchKeyFound
      else .ok { st with
                  scanExecuting := true, nextEntry := index, currentPageNum := p,
                  lowValInt := lowV, highValInt := hi, lowOp := lop, highOp := hop,
                  pins := st.pins ++ [p] }
    | _ => .error .NoSuchKeyFound

/-- The emit half of `BTreeIndex::scanNext` (btree.cpp lines 688-701): test
the high bound at `nextEntry` on the current leaf, then emit the rid and
advance. -/
def scanEmit (st : BT) : Except BTErr (BT × RId) :=
  match getPage st.pages st.currentPageNum with
  | .leaf karr rarr _ =>
    if st.highOp = .LT ∧ st.highValInt ≤ karr.getD st.nextEntry MAXK then
      .error .IndexScanCompleted
    else if st.highOp = .LTE ∧ st.highValInt < karr.getD st.nextEntry MAXK then
      .error .IndexScanCompleted
    else .ok ({ st with nextEntry := st.nextEntry + 1 }, rarr.getD st.nextEntry default)
  | _ => .error .ScanNotInitialized

/-- `BTreeIndex::scanNext` (btree.cpp lines 662-702).  The not-a-leaf default
branches are unreachable: the scanner's current page is always a leaf. -/
def scanNext (L : Nat) (st : BT) : Except BTErr (BT × RId) :=
  if st.scanExecuting = false then .error .ScanNotInitialized
  else
    match getPage st.pages st.currentPageNum with
    | .leaf karr _ sib =>
      if L ≤ st.nextEntry ∨ karr.getD st.nextEntry MAXK = MAXK then
        if sib = MAXPAGE then .error .IndexScanCompleted
        else scanEmit { st with
                          pins := (st.pins.erase st.currentPageNum) ++ [sib],
                          currentPageNum := sib, nextEntry := 0 }
      else scanEmit st
    | _ => .error .ScanNotInitialized

/-- `BTreeIndex::endScan` (btree.cpp lines 708-717). -/
def endScan (st : BT) : Except BTErr BT :=
  if st.scanExecuting = false then .error .ScanNotInitialized
  else .ok { st with pins := st.pins.erase st.currentPageNum, scanExecuting := false }

/-- Walk the leaf chain: the occupied keys of the leaf at `p` followed by
the chain of its right sibling.  At the sentinel page id (or any id that is
not a leaf) the walk stops. -/
def chainKeys (ps : List Node) : Nat → Nat → List Int
  | 0, _ => []
  | fuel+1, p =>
    match getPage ps p with
    | .leaf karr _ sib => karr.takeWhile (· ≠ MAXK) ++ chainKeys ps fuel sib
    | _ => []

/-- Descend `pageNoArray[0]` pointers from a page to the leftmost leaf
below it. -/
def leftmostLeaf (ps : List Node) : Nat → Nat → Nat
  | 0, p => p
  | fuel+1, p =>
    match getPage ps p with
    | .internal _ parr _ => leftmostLeaf ps fuel (parr.getD 0 0)
    | _ => p

/-! ### Closed forms of the loop helpers -/

variable {α : Type}

theorem getD_set_ne (xs : List α) (j i : Nat) (v d : α) (h : j ≠ i) :
    (xs.set j v).getD i d = xs.getD i d := by
  rw [List.getD_eq_getElem?_getD, List.getElem?_set, if_neg h, ← List.getD_eq_getElem?_getD]

theorem fillLoop_length (v : α) : ∀ (n a : Nat) (xs : List α),
    (fillLoop v a n xs).length = xs.length
  | 0, _, _ => rfl
  | n+1, a, xs => by rw [fillLoop, fillLoop_length v n (a+1)]; simp

theorem fillLoop_getElem? (v : α) : ∀ (n a : Nat) (xs : List α) (i : Nat),
    (fillLoop v a n xs)[i]? = if a ≤ i ∧ i < a + n ∧ i < xs.length then some v else xs[i]?
  | 0, a, xs, i => by rw [fillLoop, if_neg (by omega)]
  | n+1, a, xs, i => by
    rw [fillLoop, fillLoop_getElem? v n (a+1), List.length_set, List.getElem?_set]
    split_ifs <;> first
      | rfl
      | omega
      | (rw [List.getElem?_eq_none (by omega)])
      | (rw [eq_comm, List.getElem?_eq_none (by omega)])

theorem fillLoop_eq (v : α) (n a : Nat) (xs : List α) (h : a + n ≤ xs.length) :
    fillLoop v a n xs = xs.take a ++ (List.replicate n v ++ xs.drop (a + n)) := by
  apply List.ext_getElem?
  intro i
  rw [fillLoop_getElem?, List.getElem?_append, List.getElem?_append,
      List.getElem?_take, List.getElem?_replicate, List.getElem?_drop, List.length_take,
      List.length_replicate, Nat.min_eq_left (by omega)]
  split_ifs <;> first
    | rfl
    | omega
    | (rw [List.getElem?_eq_none (by omega)])
    | (rw [eq_comm, List.getElem?_eq_none (by omega)])
    | (congr 1 <;> omega)

theorem copyLoop_length (src : List α) (dfl : α) : ∀ (n m o : Nat) (dst : List α),
    (copyLoop src dfl m o n dst).length = dst.length
  | 0, _, _, _ => rfl
  | n+1, m, o, dst => by rw [copyLoop, copyLoop_length src dfl n (m+1) (o+1)]; simp

theorem copyLoop_getElem? (src : List α) (dfl : α) : ∀ (n m o : Nat) (dst : List α) (i : Nat),
    (copyLoop src dfl m o n dst)[i]? =
      if o ≤ i ∧ i < o + n ∧ i < dst.length then some (src.getD (m + (i - o)) dfl) else dst[i]?
  | 0, m, o, dst, i => by rw [copyLoop, if_neg (by omega)]
  | n+1, m, o, dst, i => by
    rw [copyLoop, copyLoop_getElem? src dfl n (m+1) (o+1), List.length_set, List.getElem?_set]
    split_ifs <;> first
      | rfl
      | omega
      | (congr 2 <;> omega)
      | (rw [List.getElem?_eq_none (by omega)])
      | (rw [eq_comm, List.getElem?_eq_none (by omega)])

theorem copyLoop_eq (src : List α) (dfl : α) (n m o : Nat) (dst : List α)
    (h : o + n ≤ dst.length) (h2 : m + n ≤ src.length) :
    copyLoop src dfl m o n dst =
      dst.take o ++ ((src.drop m).take n ++ dst.drop (o + n)) := by
  apply List.ext_getElem?
  intro i
  rw [copyLoop_getElem?, List.getElem?_append, List.getElem?_append,
      List.getElem?_take, List.getElem?_take, List.getElem?_drop, List.getElem?_drop,
      List.length_take, List.length_take, List.length_drop,
      Nat.min_eq_left (by omega), Nat.min_eq_left (by omega)]
  split_ifs <;> first
    | rfl
    | omega
    | (rw [List.getElem?_eq_none (by omega)])
    | (rw [eq_comm, List.getElem?_eq_none (by omega)])
    | (congr 1 <;> omega)
    | ((rw [List.getD_eq_getElem?_getD, List.getElem?_eq_getElem (l := src) (by omega)]
        simp only [Option.getD_some]) <;> (congr 1 <;> omega))

theorem shiftLoop_length (dfl : α) (lo : Nat) : ∀ (n : Nat) (xs : List α),
    (shiftLoop dfl lo n xs).length = xs.length
  | 0, _ => rfl
  | n+1, xs => by rw [shiftLoop, shiftLoop_length dfl lo n]; simp

theorem shiftLoop_getElem? (dfl : α) (lo : Nat) : ∀ (n : Nat) (xs : List α) (i : Nat),
    (shiftLoop dfl lo n xs)[i]? =
      if lo + 1 ≤ i ∧ i < lo + n + 1 ∧ i < xs.length then some (xs.getD (i-1) dfl)
      else xs[i]?
  | 0, xs, i => by rw [shiftLoop, if_neg (by omega)]
  | n+1, xs, i => by
    rw [shiftLoop, shiftLoop_getElem? dfl lo n, List.length_set]
    by_cases ht : lo + 1 ≤ i ∧ i < lo + n + 1 ∧ i < xs.length
    · rw [if_pos ht, if_pos (show lo + 1 ≤ i ∧ i < lo + (n+1) + 1 ∧ i < xs.length by omega)]
      rw [getD_set_ne _ _ _ _ _ (by omega)]
    · rw [if_neg ht, List.getElem?_set]
      by_cases he : lo + n + 1 = i
      · by_cases hl : i < xs.length
        · rw [if_pos he, if_pos (by omega),
              if_pos (show lo + 1 ≤ i ∧ i < lo + (n+1) + 1 ∧ i < xs.length by omega)]
          congr 1
          rw [List.getD_eq_getElem?_getD, List.getD_eq_getElem?_getD]
          congr 2
          omega
        · rw [if_pos he, if_neg (by omega),
              if_neg (show ¬(lo + 1 ≤ i ∧ i < lo + (n+1) + 1 ∧ i < xs.length) by omega),
              eq_comm, List.getElem?_eq_none (by omega)]
      · rw [if_neg he,
            if_neg (show ¬(lo + 1 ≤ i ∧ i < lo + (n+1) + 1 ∧ i < xs.length) by omega)]

theorem shiftLoop_eq (dfl : α) (lo n : Nat) (xs : List α) (h : lo + n + 1 ≤ xs.length) :
    shiftLoop dfl lo n xs =
      xs.take (lo+1) ++ ((xs.drop lo).take n ++ xs.drop (lo + n + 1)) := by
  apply List.ext_getElem?
  intro i
  rw [shiftLoop_getElem?, List.getElem?_append, List.getElem?_append,
      List.getElem?_take, List.getElem?_take, List.getElem?_drop, List.getElem?_drop,
      List.length_take, List.length_take, List.length_drop,
      Nat.min_eq_left (by omega), Nat.min_eq_left (by omega)]
  by_cases h1 : i < lo + 1
  · rw [if_neg (by omega), if_pos h1, if_pos h1]
  · by_cases hm : i < lo + n + 1
    · rw [if_pos (show lo + 1 ≤ i ∧ i < lo + n + 1 ∧ i < xs.length by omega),
          if_neg h1, if_pos (show i - (lo+1) < n by omega),
          if_pos (show i - (lo+1) < n by omega),
          show lo + (i - (lo+1)) = i - 1 by omega,
          List.getD_eq_getElem?_getD, List.getElem?_eq_getElem (l := xs) (by omega)]
      simp only [Option.getD_some]
    · rw [if_neg (by omega), if_neg h1, if_neg (by omega)]
      congr 1
      omega

variable {β : Type}

theorem findSlot_le_length (k : Int) : ∀ (xs : List Int), findSlot k xs ≤ xs.length
  | [] => Nat.le_refl 0
  | x :: xs => by
    rw [findSlot]
    split_ifs
    · exact Nat.succ_le_succ (findSlot_le_length k xs)
    · exact Nat.zero_le _

theorem shift_set_eq (arr : List β) (d v : β) (i n : Nat) (hlen : i + n + 1 = arr.length) :
    (shiftLoop d i n arr).set i v = arr.take i ++ v :: (arr.drop i).take n := by
  rw [shiftLoop_eq d i n arr (by omega)]
  rw [show i + n + 1 = arr.length from hlen, List.drop_length, List.append_nil]
  rw [List.set_append, if_pos (show i < (arr.take (i+1)).length by
        simp [List.length_take]; omega)]
  rw [List.set_eq_take_cons_drop v (show i < (arr.take (i+1)).length by
        simp [List.length_take]; omega)]
  rw [List.take_take, List.drop_of_length_le (show (arr.take (i+1)).length ≤ i + 1 by
        simp [List.length_take])]
  simp [Nat.min_eq_left (Nat.le_succ i)]

theorem fill_tail_eq (v : β) (a n : Nat) (arr : List β) (hlen : a + n = arr.length) :
    fillLoop v a n arr = arr.take a ++ List.replicate n v := by
  rw [fillLoop_eq v n a arr (by omega), hlen, List.drop_length, List.append_nil]

theorem fill_replicate (v : β) (w : β) (n : Nat) :
    fillLoop v 0 n (List.replicate n w) = List.replicate n v := by
  rw [fill_tail_eq v 0 n _ (by simp), List.take_zero, List.nil_append]

theorem copy_head_eq (src : List β) (dfl d2 : β) (m n len : Nat)
    (h1 : n ≤ len) (h2 : m + n ≤ src.length) :
    copyLoop src dfl m 0 n (List.replicate len d2) =
      (src.drop m).take n ++ List.replicate (len - n) d2 := by
  rw [copyLoop_eq src dfl n m 0 _ (by simp; omega) h2]
  simp [List.drop_replicate]

theorem insertLeaf_nonfull (L : Nat) (ps : List Node) (p : Nat) (k : Int) (rid : RId)
    (karr : List Int) (rarr : List RId) (sib : Nat)
    (hp : getPage ps p = .leaf karr rarr sib)
    (hkl : karr.length = L) (hrl : rarr.length = L)
    (hnf : karr.getD (L-1) MAXK = MAXK) (hi : findSlot k karr < L) :
    insertLeaf L ps p k rid =
      (setPage ps p (.leaf
        (karr.take (findSlot k karr) ++
          k :: (karr.drop (findSlot k karr)).take (L - 1 - findSlot k karr))
        (rarr.take (findSlot k karr) ++
          rid :: (rarr.drop (findSlot k karr)).take (L - 1 - findSlot k karr))
        sib),
       ⟨MAXPAGE, MAXK⟩) := by
  rw [insertLeaf, hp]
  simp only [if_neg (not_not_intro hnf)]
  rw [shift_set_eq karr MAXK k _ _ (by omega), shift_set_eq rarr default rid _ _ (by omega)]

theorem shift_set_eq' (arr : List β) (d v : β) (i n : Nat) (hlen : i + n + 1 ≤ arr.length) :
    (shiftLoop d i n arr).set i v =
      arr.take i ++ v :: ((arr.drop i).take n ++ arr.drop (i + n + 1)) := by
  rw [shiftLoop_eq d i n arr hlen]
  rw [List.set_append, if_pos (show i < (arr.take (i+1)).length by
        simp [List.length_take]; omega)]
  rw [List.set_eq_take_cons_drop v (show i < (arr.take (i+1)).length by
        simp [List.length_take]; omega)]
  rw [List.take_take, List.drop_of_length_le (show (arr.take (i+1)).length ≤ i + 1 by
        simp [List.length_take])]
  simp [Nat.min_eq_left (Nat.le_succ i)]

theorem shift_fill_set_eq (arr : List β) (d v : β) (i mid L : Nat)
    (hi : i ≤ mid) (hm : mid < L) (hlen : arr.length = L) :
    (fillLoop d (mid+1) (L - (mid+1)) (shiftLoop d i (mid - i) arr)).set i v =
      arr.take i ++ v :: ((arr.drop i).take (mid - i) ++ List.replicate (L - (mid+1)) d) := by
  rw [fill_tail_eq d (mid+1) (L - (mid+1)) _ (by rw [shiftLoop_length]; omega)]
  rw [shiftLoop_eq d i (mid - i) arr (by omega)]
  rw [List.take_append_eq_append_take, List.take_append_eq_append_take]
  rw [List.take_of_length_le (show (arr.take (i+1)).length ≤ mid + 1 by
        simp [List.length_take]; omega)]
  rw [List.take_of_length_le (show ((arr.drop i).take (mid - i)).length ≤
        mid + 1 - (arr.take (i+1)).length by simp [List.length_take]; omega)]
  rw [show mid + 1 - (arr.take (i+1)).length - ((arr.drop i).take (mid - i)).length = 0 by
        simp [List.length_take, List.length_drop]; omega]
  rw [List.take_zero, List.append_nil]
  rw [List.set_append, if_pos (show i < (arr.take (i+1) ++ (arr.drop i).take (mid - i)).length by
        simp [List.length_take]; omega)]
  rw [List.set_append, if_pos (show i < (arr.take (i+1)).length by
        simp [List.length_take]; omega)]
  rw [List.set_eq_take_cons_drop v (show i < (arr.take (i+1)).length by
        simp [List.length_take]; omega)]
  rw [List.take_take, List.drop_of_length_le (show (arr.take (i+1)).length ≤ i + 1 by
        simp [List.length_take])]
  simp [Nat.min_eq_left (Nat.le_succ i)]

theorem sib_gt_eq (src : List β) (d v : β) (i mid2 L : Nat)
    (h1 : 1 ≤ mid2) (h2 : mid2 ≤ i) (h3 : i ≤ L) (hlen : src.length = L) :
    copyLoop src d i (i - mid2 + 1) (L - i)
        ((copyLoop src d mid2 0 (i - mid2) (List.replicate L d)).set (i - mid2) v) =
      (src.drop mid2).take (i - mid2) ++ v :: (src.drop i ++ List.replicate (mid2 - 1) d) := by
  rw [copy_head_eq src d d mid2 (i - mid2) L (by omega) (by omega)]
  rw [List.set_append, if_neg (show ¬ (i - mid2) < ((src.drop mid2).take (i - mid2)).length by
        simp [List.length_take, List.length_drop] <;> omega)]
  rw [show i - mid2 - ((src.drop mid2).take (i - mid2)).length = 0 by
        simp [List.length_take, List.length_drop]; omega]
  rw [show L - (i - mid2) = (L - (i - mid2) - 1) + 1 by omega, List.replicate_succ,
      List.set_cons_zero]
  rw [copyLoop_eq src d (L - i) i (i - mid2 + 1) _ (by
        simp [List.length_take, List.length_drop] <;> omega) (by omega)]
  rw [List.take_append_eq_append_take,
      List.take_of_length_le (show ((src.drop mid2).take (i - mid2)).length ≤ i - mid2 + 1 by
        simp [List.length_take, List.length_drop] <;> omega)]
  rw [List.drop_append_eq_append_drop,
      List.drop_of_length_le (show ((src.drop mid2).take (i - mid2)).length ≤
        i - mid2 + 1 + (L - i) by simp [List.length_take, List.length_drop] <;> omega)]
  rw [List.take_of_length_le (show (src.drop i).length ≤ L - i by
        simp [List.length_drop] <;> omega)]
  rw [show i - mid2 + 1 - ((src.drop mid2).take (i - mid2)).length = 1 by
        simp [List.length_take, List.length_drop] <;> omega]
  rw [show i - mid2 + 1 + (L - i) - ((src.drop mid2).take (i - mid2)).length = 1 + (L - i) by
        simp [List.length_take, List.length_drop]; omega]
  rw [show (1 : Nat) = 0 + 1 by rfl, List.take_succ_cons, List.take_zero,
      show 0 + 1 + (L - i) = (L - i) + 1 by omega, List.drop_succ_cons,
      List.drop_replicate,
      show L - (i - mid2) - 1 - (L - i) = mid2 - 1 by omega]
  simp

theorem getD_zero_drop (l : List Int) (m : Nat) (d : Int) :
    (l.drop m).getD 0 d = l.getD m d := by
  rw [List.getD_eq_getElem?_getD, List.getD_eq_getElem?_getD, List.getElem?_drop]
  simp

theorem insertLeaf_full_le (L : Nat) (ps : List Node) (p : Nat) (k : Int) (rid : RId)
    (karr : List Int) (rarr : List RId) (sib : Nat)
    (hp : getPage ps p = .leaf karr rarr sib)
    (hkl : karr.length = L) (hrl : rarr.length = L)
    (hfull : karr.getD (L-1) MAXK ≠ MAXK) (hL : 1 ≤ L)
    (hle : findSlot k karr ≤ (L-1)/2) :
    insertLeaf L ps p k rid =
      (setPage (setPage
          (ps ++ [Node.leaf (List.replicate L 0) (List.replicate L default) sib])
          ps.length
          (.leaf (karr.drop ((L-1)/2) ++ List.replicate ((L-1)/2) MAXK)
                 (rarr.drop ((L-1)/2) ++ List.replicate ((L-1)/2) default) sib))
        p
        (.leaf (karr.take (findSlot k karr) ++ k ::
                  ((karr.drop (findSlot k karr)).take ((L-1)/2 - findSlot k karr) ++
                   List.replicate (L - ((L-1)/2 + 1)) MAXK))
               (rarr.take (findSlot k karr) ++ rid ::
                  ((rarr.drop (findSlot k karr)).take ((L-1)/2 - findSlot k karr) ++
                   rarr.drop (findSlot k karr + ((L-1)/2 - findSlot k karr) + 1)))
               ps.length),
       ⟨ps.length, (karr.drop ((L-1)/2) ++ List.replicate ((L-1)/2) MAXK).getD 0 MAXK⟩) := by
  have hmid : (L-1)/2 < L := by omega
  rw [insertLeaf, hp]
  simp only []
  rw [if_pos hfull, if_pos hle]
  rw [fill_replicate]
  rw [copy_head_eq karr MAXK MAXK ((L-1)/2) (L - (L-1)/2) L (by omega) (by omega)]
  rw [copy_head_eq rarr default default ((L-1)/2) (L - (L-1)/2) L (by omega) (by omega)]
  rw [List.take_of_length_le (show (karr.drop ((L-1)/2)).length ≤ L - (L-1)/2 by
        simp [List.length_drop] <;> omega)]
  rw [List.take_of_length_le (show (rarr.drop ((L-1)/2)).length ≤ L - (L-1)/2 by
        simp [List.length_drop] <;> omega)]
  rw [show L - (L - (L-1)/2) = (L-1)/2 by omega]
  rw [shift_fill_set_eq karr MAXK k (findSlot k karr) ((L-1)/2) L hle hmid hkl]
  rw [shift_set_eq' rarr default rid (findSlot k karr) ((L-1)/2 - findSlot k karr) (by omega)]

theorem insertLeaf_full_gt (L : Nat) (ps : List Node) (p : Nat) (k : Int) (rid : RId)
    (karr : List Int) (rarr : List RId) (sib : Nat)
    (hp : getPage ps p = .leaf karr rarr sib)
    (hkl : karr.length = L) (hrl : rarr.length = L)
    (hfull : karr.getD (L-1) MAXK ≠ MAXK) (hL : 1 ≤ L)
    (hgt : (L-1)/2 < findSlot k karr) :
    insertLeaf L ps p k rid =
      (setPage (setPage
          (ps ++ [Node.leaf (List.replicate L 0) (List.replicate L default) sib])
          ps.length
          (.leaf ((karr.drop ((L-1)/2 + 1)).take (findSlot k karr - ((L-1)/2 + 1)) ++ k ::
                    (karr.drop (findSlot k karr) ++ List.replicate ((L-1)/2) MAXK))
                 ((rarr.drop ((L-1)/2 + 1)).take (findSlot k karr - ((L-1)/2 + 1)) ++ rid ::
                    (rarr.drop (findSlot k karr) ++ List.replicate ((L-1)/2) default))
                 sib))
        p
        (.leaf (karr.take ((L-1)/2 + 1) ++ List.replicate (L - ((L-1)/2 + 1)) MAXK)
               rarr ps.length),
       ⟨ps.length,
        ((karr.drop ((L-1)/2 + 1)).take (findSlot k karr - ((L-1)/2 + 1)) ++ k ::
          (karr.drop (findSlot k karr) ++ List.replicate ((L-1)/2) MAXK)).getD 0 MAXK⟩) := by
  have hiL : findSlot k karr ≤ L := hkl ▸ findSlot_le_length k karr
  rw [insertLeaf, hp]
  simp only []
  rw [if_pos hfull, if_neg (show ¬ findSlot k karr ≤ (L-1)/2 by omega)]
  rw [fill_replicate]
  rw [sib_gt_eq karr MAXK k (findSlot k karr) ((L-1)/2 + 1) L (by omega) (by omega) hiL hkl]
  rw [sib_gt_eq rarr default rid (findSlot k karr) ((L-1)/2 + 1) L (by omega) (by omega) hiL hrl]
  rw [fill_tail_eq MAXK ((L-1)/2 + 1) (L - ((L-1)/2 + 1)) karr (by omega)]
  rw [show (L-1)/2 + 1 - 1 = (L-1)/2 by omega]

theorem getPage_of_le_length (ps : List Node) (p : Nat) (h : ps.length ≤ p) :
    getPage ps p = .meta 0 false := by
  rw [getPage, List.getD_eq_getElem?_getD, List.getElem?_eq_none h, Option.getD_none]

theorem lt_length_of_getPage_leaf (ps : List Node) (p : Nat) (karr rarr sib)
    (h : getPage ps p = .leaf karr rarr sib) : p < ps.length := by
  by_contra hc
  rw [getPage_of_le_length ps p (by omega)] at h
  exact Node.noConfusion h

theorem lt_length_of_getPage_internal (ps : List Node) (p : Nat) (karr parr lvl)
    (h : getPage ps p = .internal karr parr lvl) : p < ps.length := by
  by_contra hc
  rw [getPage_of_le_length ps p (by omega)] at h
  exact Node.noConfusion h

theorem getPage_setPage_self (ps : List Node) (p : Nat) (n : Node) (h : p < ps.length) :
    getPage (setPage ps p n) p = n := by
  rw [getPage, setPage, List.getD_eq_getElem?_getD, List.getElem?_set, if_pos rfl,
      if_pos h, Option.getD_some]

theorem getPage_setPage_ne (ps : List Node) (p q : Nat) (n : Node) (h : p ≠ q) :
    getPage (setPage ps p n) q = getPage ps q := by
  rw [getPage, setPage, List.getD_eq_getElem?_getD, List.getElem?_set, if_neg h,
      getPage, List.getD_eq_getElem?_getD]

theorem getPage_append_left (ps l : List Node) (q : Nat) (h : q < ps.length) :
    getPage (ps ++ l) q = getPage ps q := by
  rw [getPage, getPage, List.getD_eq_getElem?_getD, List.getD_eq_getElem?_getD,
      List.getElem?_append, if_pos h]

theorem getPage_append_self (ps : List Node) (n : Node) :
    getPage (ps ++ [n]) ps.length = n := by
  rw [getPage, List.getD_eq_getElem?_getD, List.getElem?_append, if_neg (by omega)]
  simp

theorem length_setPage (ps : List Node) (p : Nat) (n : Node) :
    (setPage ps p n).length = ps.length := by
  rw [setPage, List.length_set]

/-- C2: a full leaf (`keyArray[L-1] ≠ MAX_INT`) is split by `insertLeaf` at
`mid = (L-1)/2`: a fresh right-sibling leaf is allocated; insertion slot
`i ≤ mid` keeps the new entry on the left leaf at slot `i` while the sibling
receives `keys[mid..L)`; slot `i > mid` bumps `mid` and places the new entry
in the sibling at position `i - mid`; the sibling inherits the left leaf's
former `rightSibPageNo` and the left leaf's `rightSibPageNo` becomes the
sibling's page id; the returned pair carries the sibling page and the
sibling's first key; the left leaf's vacated tail slots become `MAX_INT`. -/
theorem C2_leaf_split (L : Nat) (ps : List Node) (p : Nat) (k : Int) (rid : RId)
    (karr : List Int) (rarr : List RId) (sib : Nat)
    (hp : getPage ps p = .leaf karr rarr sib)
    (hkl : karr.length = L) (hrl : rarr.length = L) (hL : 2 ≤ L)
    (hfull : karr.getD (L-1) MAXK ≠ MAXK) :
    ∃ sKeys sRids lKeys lRids,
      (insertLeaf L ps p k rid).1.length = ps.length + 1 ∧
      (insertLeaf L ps p k rid).2.pageNo = ps.length ∧
      getPage (insertLeaf L ps p k rid).1 p = .leaf lKeys lRids ps.length ∧
      getPage (insertLeaf L ps p k rid).1 ps.length = .leaf sKeys sRids sib ∧
      (insertLeaf L ps p k rid).2.key = sKeys.getD 0 MAXK ∧
      (findSlot k karr ≤ (L-1)/2 →
         lKeys = karr.take (findSlot k karr) ++ k ::
             ((karr.drop (findSlot k karr)).take ((L-1)/2 - findSlot k karr) ++
              List.replicate (L - ((L-1)/2 + 1)) MAXK) ∧
         lRids = rarr.take (findSlot k karr) ++ rid ::
             ((rarr.drop (findSlot k karr)).take ((L-1)/2 - findSlot k karr) ++
              rarr.drop (findSlot k karr + ((L-1)/2 - findSlot k karr) + 1)) ∧
         sKeys = karr.drop ((L-1)/2) ++ List.replicate ((L-1)/2) MAXK ∧
         sRids = rarr.drop ((L-1)/2) ++ List.replicate ((L-1)/2) default) ∧
      ((L-1)/2 < findSlot k karr →
         sKeys = (karr.drop ((L-1)/2 + 1)).take (findSlot k karr - ((L-1)/2 + 1)) ++ k ::
             (karr.drop (findSlot k karr) ++ List.replicate ((L-1)/2) MAXK) ∧
         sRids = (rarr.drop ((L-1)/2 + 1)).take (findSlot k karr - ((L-1)/2 + 1)) ++ rid ::
             (rarr.drop (findSlot k karr) ++ List.replicate ((L-1)/2) default) ∧
         lKeys = karr.take ((L-1)/2 + 1) ++ List.replicate (L - ((L-1)/2 + 1)) MAXK ∧
         lRids = rarr) := by
  have hplen : p < ps.length := lt_length_of_getPage_leaf ps p karr rarr sib hp
  by_cases hc : findSlot k karr ≤ (L-1)/2
  · rw [insertLeaf_full_le L ps p k rid karr rarr sib hp hkl hrl hfull (by omega) hc]
    refine ⟨karr.drop ((L-1)/2) ++ List.replicate ((L-1)/2) MAXK,
      rarr.drop ((L-1)/2) ++ List.replicate ((L-1)/2) default,
      karr.take (findSlot k karr) ++ k ::
        ((karr.drop (findSlot k karr)).take ((L-1)/2 - findSlot k karr) ++
         List.replicate (L - ((L-1)/2 + 1)) MAXK),
      rarr.take (findSlot k karr) ++ rid ::
        ((rarr.drop (findSlot k karr)).take ((L-1)/2 - findSlot k karr) ++
         rarr.drop (findSlot k karr + ((L-1)/2 - findSlot k karr) + 1)),
      ?A, ?B, ?C, ?D, ?E, ?F, ?G⟩
    case C => rw [getPage_setPage_self _ _ _ (by simp [setPage, List.length_set]; omega)]
    case D =>
      rw [getPage_setPage_ne _ _ _ _ (by omega)]
      rw [getPage_setPage_self _ _ _ (by simp)]
    case A => simp [setPage, List.length_set]
    case B => rfl
    case E => rfl
    case F => exact fun _ => ⟨rfl, rfl, rfl, rfl⟩
    case G => exact fun hgt => absurd hc (by omega)
  · rw [insertLeaf_full_gt L ps p k rid karr rarr sib hp hkl hrl hfull (by omega) (by omega)]
    refine ⟨(karr.drop ((L-1)/2 + 1)).take (findSlot k karr - ((L-1)/2 + 1)) ++ k ::
        (karr.drop (findSlot k karr) ++ List.replicate ((L-1)/2) MAXK),
      (rarr.drop ((L-1)/2 + 1)).take (findSlot k karr - ((L-1)/2 + 1)) ++ rid ::
        (rarr.drop (findSlot k karr) ++ List.replicate ((L-1)/2) default),
      karr.take ((L-1)/2 + 1) ++ List.replicate (L - ((L-1)/2 + 1)) MAXK,
      rarr,
      ?A, ?B, ?C, ?D, ?E, ?F, ?G⟩
    case C => rw [getPage_setPage_self _ _ _ (by simp [setPage, List.length_set]; omega)]
    case D =>
      rw [getPage_setPage_ne _ _ _ _ (by omega)]
      rw [getPage_setPage_self _ _ _ (by simp)]
    case A => simp [setPage, List.length_set]
    case B => rfl
    case E => rfl
    case F => exact fun hle => absurd hle hc
    case G => exact fun _ => ⟨rfl, rfl, rfl, rfl⟩

theorem sibP_mid_eq (parr : List Nat) (a mid N : Nat)
    (hm : mid ≤ N) (hlen : parr.length = N + 1) :
    (copyLoop parr 0 (mid+1) 1 (N - mid) (List.replicate (N+1) 0)).set 0 a =
      a :: (parr.drop (mid+1) ++ List.replicate mid 0) := by
  rw [copyLoop_eq parr 0 (N - mid) (mid+1) 1 _ (by simp; omega) (by omega)]
  rw [List.take_of_length_le (show (parr.drop (mid+1)).length ≤ N - mid by
        simp [List.length_drop] <;> omega)]
  rw [List.take_replicate, List.drop_replicate]
  rw [show min 1 (N+1) = 1 by omega, show N + 1 - (1 + (N - mid)) = mid by omega]
  rw [show List.replicate 1 (0:Nat) = [0] from rfl]
  rw [show ([0] ++ (parr.drop (mid+1) ++ List.replicate mid 0)) =
        0 :: (parr.drop (mid+1) ++ List.replicate mid 0) from rfl, List.set_cons_zero]

theorem getElem?_eq_some_getD (l : List β) (i : Nat) (d : β) (h : i < l.length) :
    l[i]? = some (l.getD i d) := by
  rw [List.getElem?_eq_getElem h, List.getD_eq_getElem l d h]

theorem sibP_gt_eq (parr : List Nat) (a : Nat) (index mid2 N : Nat)
    (h1 : 1 ≤ mid2) (h2 : mid2 ≤ index) (h3 : index ≤ N) (hlen : parr.length = N + 1) :
    copyLoop parr 0 (index+1) (index - mid2 + 2) (N - index)
        (((copyLoop parr 0 (mid2+1) 1 (index - mid2)
            (List.replicate (N+1) 0)).set (index - mid2 + 1) a).set 0 (parr.getD mid2 0)) =
      parr.getD mid2 0 ::
        ((parr.drop (mid2+1)).take (index - mid2) ++ a ::
          (parr.drop (index+1) ++ List.replicate (mid2 - 1) 0)) := by
  apply List.ext_getElem?
  intro i
  rw [copyLoop_getElem?, List.getElem?_set, List.getElem?_set, copyLoop_getElem?,
      List.getElem?_replicate, List.getElem?_cons, List.getElem?_append,
      List.getElem?_cons, List.getElem?_append, List.getElem?_take, List.getElem?_drop,
      List.getElem?_drop, List.getElem?_replicate]
  simp only [List.length_set, copyLoop_length, List.length_replicate, List.length_take,
      List.length_drop, hlen]
  split_ifs <;> first
    | rfl
    | omega
    | (congr 2 <;> first | rfl | omega)
    | (rw [getElem?_eq_some_getD parr _ 0 (by omega)] <;>
        (congr 2 <;> first | rfl | omega))
    | (rw [eq_comm, getElem?_eq_some_getD parr _ 0 (by omega)] <;>
        (congr 2 <;> first | rfl | omega))

theorem hcs_sentinel (N : Nat) (ps : List Node) (p index : Nat) (split : PageKeyPair)
    (hkey : split.key = MAXK) :
    handleChildSplit N ps p index split = (ps, ⟨MAXPAGE, MAXK⟩) := by
  rw [handleChildSplit]
  cases getPage ps p <;> simp [hkey]

theorem hcs_nonfull (N : Nat) (ps : List Node) (p index : Nat) (split : PageKeyPair)
    (karr : List Int) (parr : List Nat) (lvl : Int)
    (hp : getPage ps p = .internal karr parr lvl)
    (hkl : karr.length = N) (hpl : parr.length = N + 1)
    (hkey : split.key ≠ MAXK) (hnf : karr.getD (N-1) MAXK = MAXK)
    (hi : index ≤ N - 1) (hN : 1 ≤ N) :
    handleChildSplit N ps p index split =
      (setPage ps p (.internal
        (karr.take index ++ split.key :: (karr.drop index).take (N - 1 - index))
        (parr.take (index+1) ++ split.pageNo :: (parr.drop (index+1)).take (N - 1 - index))
        lvl),
       ⟨MAXPAGE, MAXK⟩) := by
  rw [handleChildSplit, hp]
  simp only []
  rw [if_neg hkey, if_neg (not_not_intro hnf)]
  rw [shift_set_eq karr MAXK split.key index (N - 1 - index) (by omega)]
  rw [shift_set_eq parr 0 split.pageNo (index+1) (N - 1 - index) (by omega)]

theorem hcs_full_mid (N : Nat) (ps : List Node) (p index : Nat) (split : PageKeyPair)
    (karr : List Int) (parr : List Nat) (lvl : Int)
    (hp : getPage ps p = .internal karr parr lvl)
    (hkl : karr.length = N) (hpl : parr.length = N + 1)
    (hkey : split.key ≠ MAXK) (hfull : karr.getD (N-1) MAXK ≠ MAXK)
    (hmid : index = N / 2) (hN : 1 ≤ N) :
    handleChildSplit N ps p index split =
      (setPage (setPage
          (ps ++ [Node.internal (List.replicate N 0) (List.replicate (N+1) 0) lvl])
          ps.length
          (.internal (karr.drop (N/2) ++ List.replicate (N/2) MAXK)
                     (split.pageNo :: (parr.drop (N/2 + 1) ++ List.replicate (N/2) 0)) lvl))
        p
        (.internal (karr.take (N/2) ++ List.replicate (N - N/2) MAXK) parr lvl),
       ⟨ps.length, split.key⟩) := by
  rw [handleChildSplit, hp]
  simp only []
  rw [if_neg hkey, if_pos hfull, if_pos hmid, fill_replicate]
  rw [copy_head_eq karr MAXK MAXK (N/2) (N - N/2) N (by omega) (by omega)]
  rw [List.take_of_length_le (show (karr.drop (N/2)).length ≤ N - N/2 by
        simp [List.length_drop] <;> omega)]
  rw [show N - (N - N/2) = N/2 by omega]
  rw [sibP_mid_eq parr split.pageNo (N/2) N (by omega) hpl]
  rw [fill_tail_eq MAXK (N/2) (N - N/2) karr (by omega)]

theorem hcs_full_lt (N : Nat) (ps : List Node) (p index : Nat) (split : PageKeyPair)
    (karr : List Int) (parr : List Nat) (lvl : Int)
    (hp : getPage ps p = .internal karr parr lvl)
    (hkl : karr.length = N) (hpl : parr.length = N + 1)
    (hkey : split.key ≠ MAXK) (hfull : karr.getD (N-1) MAXK ≠ MAXK)
    (hlt : index < N / 2) :
    handleChildSplit N ps p index split =
      (setPage (setPage
          (ps ++ [Node.internal (List.replicate N 0) (List.replicate (N+1) 0) lvl])
          ps.length
          (.internal (karr.drop (N/2) ++ List.replicate (N/2) MAXK)
                     (parr.getD (N/2) 0 :: (parr.drop (N/2 + 1) ++ List.replicate (N/2) 0)) lvl))
        p
        (.internal
          (karr.take index ++ split.key ::
            ((karr.drop index).take (N/2 - 1 - index) ++ List.replicate (N - N/2) MAXK))
          (parr.take (index+1) ++ split.pageNo ::
            ((parr.drop (index+1)).take (N/2 - 1 - index) ++
             parr.drop (index + 1 + (N/2 - 1 - index) + 1)))
          lvl),
       ⟨ps.length, karr.getD (N/2 - 1) MAXK⟩) := by
  rw [handleChildSplit, hp]
  simp only []
  rw [if_neg hkey, if_pos hfull, if_neg (show ¬ index = N / 2 by omega),
      if_pos hlt, fill_replicate]
  rw [copy_head_eq karr MAXK MAXK (N/2) (N - N/2) N (by omega) (by omega)]
  rw [List.take_of_length_le (show (karr.drop (N/2)).length ≤ N - N/2 by
        simp [List.length_drop] <;> omega)]
  rw [show N - (N - N/2) = N/2 by omega]
  rw [sibP_mid_eq parr (parr.getD (N/2) 0) (N/2) N (by omega) hpl]
  rw [show (fillLoop MAXK (N/2) (N - N/2) (shiftLoop MAXK index (N/2 - 1 - index) karr)) =
        (fillLoop MAXK ((N/2 - 1) + 1) (N - ((N/2 - 1) + 1))
          (shiftLoop MAXK index ((N/2 - 1) - index) karr)) by
        congr 1 <;> omega]
  rw [shift_fill_set_eq karr MAXK split.key index (N/2 - 1) N (by omega) (by omega) hkl]
  rw [shift_set_eq' parr 0 split.pageNo (index+1) (N/2 - 1 - index) (by omega)]
  rw [show N/2 - 1 + 1 = N/2 by omega]

theorem hcs_full_gt (N : Nat) (ps : List Node) (p index : Nat) (split : PageKeyPair)
    (karr : List Int) (parr : List Nat) (lvl : Int)
    (hp : getPage ps p = .internal karr parr lvl)
    (hkl : karr.length = N) (hpl : parr.length = N + 1)
    (hkey : split.key ≠ MAXK) (hfull : karr.getD (N-1) MAXK ≠ MAXK)
    (hgt : N / 2 < index) (hiN : index ≤ N) :
    handleChildSplit N ps p index split =
      (setPage (setPage
          (ps ++ [Node.internal (List.replicate N 0) (List.replicate (N+1) 0) lvl])
          ps.length
          (.internal
            ((karr.drop (N/2 + 1)).take (index - (N/2 + 1)) ++ split.key ::
              (karr.drop index ++ List.replicate (N/2) MAXK))
            (parr.getD (N/2 + 1) 0 ::
              ((parr.drop (N/2 + 1 + 1)).take (index - (N/2 + 1)) ++ split.pageNo ::
                (parr.drop (index+1) ++ List.replicate (N/2) 0)))
            lvl))
        p
        (.internal (karr.take (N/2) ++ List.replicate (N - N/2) MAXK) parr lvl),
       ⟨ps.length, karr.getD (N/2) MAXK⟩) := by
  rw [handleChildSplit, hp]
  simp only []
  rw [if_neg hkey, if_pos hfull, if_neg (show ¬ index = N / 2 by omega),
      if_neg (show ¬ index < N / 2 by omega), fill_replicate]
  rw [sib_gt_eq karr MAXK split.key index (N/2 + 1) N (by omega) (by omega) hiN hkl]
  rw [sibP_gt_eq parr split.pageNo index (N/2 + 1) N (by omega) (by omega) hiN hpl]
  rw [fill_tail_eq MAXK (N/2 + 1 - 1) (N - (N/2 + 1 - 1)) karr (by omega)]
  rw [show N/2 + 1 - 1 = N/2 by omega]

/-- C3: a full internal node (`keyArray[N-1] ≠ MAX_INT`) handling a child
split `(splitKey, splitPageNo)` is split at `mid = N/2`: a fresh right
sibling with the same `level` is allocated; `i < mid` promotes
`keys[mid-1]`, gives the sibling `pageNoArray[mid]` as leftmost child and
inserts the pair at slot `i` of the compacted left node; `i = mid` promotes
`splitKey` itself with `splitPageNo` as the sibling's leftmost child;
`i > mid` promotes `keys[mid]` and builds the sibling from the bumped mid;
in every case the left node's vacated slots become `MAX_INT` and the
promoted `(separator, new sibling page)` pair is returned. -/
theorem C3_node_split (N : Nat) (ps : List Node) (p index : Nat) (split : PageKeyPair)
    (karr : List Int) (parr : List Nat) (lvl : Int)
    (hp : getPage ps p = .internal karr parr lvl)
    (hkl : karr.length = N) (hpl : parr.length = N + 1) (hN : 2 ≤ N)
    (hkey : split.key ≠ MAXK) (hfull : karr.getD (N-1) MAXK ≠ MAXK)
    (hiN : index ≤ N) :
    ∃ sKeys sP lKeys lP,
      (handleChildSplit N ps p index split).1.length = ps.length + 1 ∧
      (handleChildSplit N ps p index split).2.pageNo = ps.length ∧
      getPage (handleChildSplit N ps p index split).1 p = .internal lKeys lP lvl ∧
      getPage (handleChildSplit N ps p index split).1 ps.length = .internal sKeys sP lvl ∧
      (index < N/2 →
        (handleChildSplit N ps p index split).2.key = karr.getD (N/2 - 1) MAXK ∧
        sKeys = karr.drop (N/2) ++ List.replicate (N/2) MAXK ∧
        sP = parr.getD (N/2) 0 :: (parr.drop (N/2 + 1) ++ List.replicate (N/2) 0) ∧
        lKeys = karr.take index ++ split.key ::
          ((karr.drop index).take (N/2 - 1 - index) ++ List.replicate (N - N/2) MAXK) ∧
        lP = parr.take (index+1) ++ split.pageNo ::
          ((parr.drop (index+1)).take (N/2 - 1 - index) ++
           parr.drop (index + 1 + (N/2 - 1 - index) + 1))) ∧
      (index = N/2 →
        (handleChildSplit N ps p index split).2.key = split.key ∧
        sKeys = karr.drop (N/2) ++ List.replicate (N/2) MAXK ∧
        sP = split.pageNo :: (parr.drop (N/2 + 1) ++ List.replicate (N/2) 0) ∧
        lKeys = karr.take (N/2) ++ List.replicate (N - N/2) MAXK ∧
        lP = parr) ∧
      (N/2 < index →
        (handleChildSplit N ps p index split).2.key = karr.getD (N/2) MAXK ∧
        sKeys = (karr.drop (N/2 + 1)).take (index - (N/2 + 1)) ++ split.key ::
          (karr.drop index ++ List.replicate (N/2) MAXK) ∧
        sP = parr.getD (N/2 + 1) 0 ::
          ((parr.drop (N/2 + 1 + 1)).take (index - (N/2 + 1)) ++ split.pageNo ::
            (parr.drop (index+1) ++ List.replicate (N/2) 0)) ∧
        lKeys = karr.take (N/2) ++ List.replicate (N - N/2) MAXK ∧
        lP = parr) := by
  have hplen : p < ps.length := lt_length_of_getPage_internal ps p karr parr lvl hp
  rcases Nat.lt_trichotomy index (N/2) with hlt | heq | hgt
  · rw [hcs_full_lt N ps p index split karr parr lvl hp hkl hpl hkey hfull hlt]
    refine ⟨karr.drop (N/2) ++ List.replicate (N/2) MAXK,
      parr.getD (N/2) 0 :: (parr.drop (N/2 + 1) ++ List.replicate (N/2) 0),
      karr.take index ++ split.key ::
        ((karr.drop index).take (N/2 - 1 - index) ++ List.replicate (N - N/2) MAXK),
      parr.take (index+1) ++ split.pageNo ::
        ((parr.drop (index+1)).take (N/2 - 1 - index) ++
         parr.drop (index + 1 + (N/2 - 1 - index) + 1)),
      ?A, ?B, ?C, ?D, ?E, ?F, ?G⟩
    case C => rw [getPage_setPage_self _ _ _ (by simp [setPage, List.length_set]; omega)]
    case D =>
      rw [getPage_setPage_ne _ _ _ _ (by omega)]
      rw [getPage_setPage_self _ _ _ (by simp)]
    case A => simp [setPage, List.length_set]
    case B => rfl
    case E => exact fun _ => ⟨rfl, rfl, rfl, rfl, rfl⟩
    case F => exact fun h => absurd h (by omega)
    case G => exact fun h => absurd h (by omega)
  · rw [hcs_full_mid N ps p index split karr parr lvl hp hkl hpl hkey hfull heq (by omega)]
    refine ⟨karr.drop (N/2) ++ List.replicate (N/2) MAXK,
      split.pageNo :: (parr.drop (N/2 + 1) ++ List.replicate (N/2) 0),
      karr.take (N/2) ++ List.replicate (N - N/2) MAXK,
      parr,
      ?A, ?B, ?C, ?D, ?E, ?F, ?G⟩
    case C => rw [getPage_setPage_self _ _ _ (by simp [setPage, List.length_set]; omega)]
    case D =>
      rw [getPage_setPage_ne _ _ _ _ (by omega)]
      rw [getPage_setPage_self _ _ _ (by simp)]
    case A => simp [setPage, List.length_set]
    case B => rfl
    case E => exact fun h => absurd h (by omega)
    case F => exact fun _ => ⟨rfl, rfl, rfl, rfl, rfl⟩
    case G => exact fun h => absurd h (by omega)
  · rw [hcs_full_gt N ps p index split karr parr lvl hp hkl hpl hkey hfull hgt hiN]
    refine ⟨(karr.drop (N/2 + 1)).take (index - (N/2 + 1)) ++ split.key ::
        (karr.drop index ++ List.replicate (N/2) MAXK),
      parr.getD (N/2 + 1) 0 ::
        ((parr.drop (N/2 + 1 + 1)).take (index - (N/2 + 1)) ++ split.pageNo ::
          (parr.drop (index+1) ++ List.replicate (N/2) 0)),
      karr.take (N/2) ++ List.replicate (N - N/2) MAXK,
      parr,
      ?A, ?B, ?C, ?D, ?E, ?F, ?G⟩
    case C => rw [getPage_setPage_self _ _ _ (by simp [setPage, List.length_set]; omega)]
    case D =>
      rw [getPage_setPage_ne _ _ _ _ (by omega)]
      rw [getPage_setPage_self _ _ _ (by simp)]
    case A => simp [setPage, List.length_set]
    case B => rfl
    case E => exact fun h => absurd h (by omega)
    case F => exact fun h => absurd h (by omega)
    case G => exact fun _ => ⟨rfl, rfl, rfl, rfl, rfl⟩

theorem insertLeaf_length_ge (L : Nat) (ps : List Node) (p : Nat) (k : Int) (rid : RId) :
    ps.length ≤ (insertLeaf L ps p k rid).1.length := by
  rw [insertLeaf]
  cases getPage ps p <;> simp only [] <;> try exact Nat.le_refl _
  split_ifs <;> simp [setPage, List.length_set]

theorem hcs_length_ge (N : Nat) (ps : List Node) (p i : Nat) (s : PageKeyPair) :
    ps.length ≤ (handleChildSplit N ps p i s).1.length := by
  rw [handleChildSplit]
  cases getPage ps p <;> simp only [] <;> try exact Nat.le_refl _
  split_ifs <;> simp [setPage, List.length_set]

theorem insertNodeGo_length_ge (L N : Nat) (k : Int) (rid : RId) :
    ∀ (fuel : Nat) (ps : List Node) (p : Nat),
      ps.length ≤ (insertNodeGo L N k rid fuel ps p).1.length
  | 0, ps, p => Nat.le_refl _
  | fuel+1, ps, p => by
    rw [insertNodeGo]
    cases hp : getPage ps p <;> try exact Nat.le_refl _
    simp only []
    refine Nat.le_trans ?_ (hcs_length_ge _ _ _ _ _)
    split_ifs
    · exact insertLeaf_length_ge _ _ _ _ _
    · exact insertNodeGo_length_ge L N k rid fuel ps _

/-- C4: when the root-level insert returns a real split pair, `insertEntry`
allocates a new internal root holding exactly the returned separator with
left child the old root and right child the returned page, fills the
remaining key slots with `MAX_INT`, sets `level = 1` iff the previous root
was a leaf, makes the new page the root, clears `rootIsLeaf`, and rewrites
the meta page (page 0) with the new root page and `rootIsLeaf = false`;
when the sentinel pair is returned, the bookkeeping fields are unchanged
and `insertEntry` adds nothing beyond the recursive call's page writes. -/
theorem C4_root_growth (L N : Nat) (st : BT) (k : Int) (rid : RId) (hN : 1 ≤ N)
    (hps : 1 ≤ st.pages.length) (r : List Node × PageKeyPair)
    (hr : r = (if st.rootIsLeaf then insertLeaf L st.pages st.rootPageNum k rid
               else insertNodeGo L N k rid st.pages.length st.pages st.rootPageNum)) :
    (r.2.key ≠ MAXK →
      (insertEntry L N st k rid).rootPageNum = r.1.length ∧
      (insertEntry L N st k rid).rootIsLeaf = false ∧
      (insertEntry L N st k rid).pages.length = r.1.length + 1 ∧
      getPage (insertEntry L N st k rid).pages r.1.length =
        .internal (r.2.key :: List.replicate (N-1) MAXK)
          (st.rootPageNum :: r.2.pageNo :: List.replicate (N-1) 0)
          (if st.rootIsLeaf then 1 else 0) ∧
      getPage (insertEntry L N st k rid).pages 0 = .meta r.1.length false) ∧
    (r.2.key = MAXK →
      insertEntry L N st k rid = { st with pages := r.1 }) := by
  have hlen : st.pages.length ≤ r.1.length := by
    rw [hr]
    split_ifs
    · exact insertLeaf_length_ge _ _ _ _ _
    · exact insertNodeGo_length_ge _ _ _ _ _ _ _
  have hkeys : fillLoop MAXK 1 (N-1) ((List.replicate N 0).set 0 r.2.key) =
      r.2.key :: List.replicate (N-1) MAXK := by
    rw [show (List.replicate N (0:Int)) = 0 :: List.replicate (N-1) 0 by
          rw [← List.replicate_succ]; congr 1; omega,
        List.set_cons_zero]
    rw [fill_tail_eq MAXK 1 (N-1) _ (by simp; omega)]
    rw [show (1:Nat) = 0 + 1 from rfl, List.take_succ_cons, List.take_zero]
    simp
  have hparr : ((List.replicate (N+1) 0).set 0 st.rootPageNum).set 1 r.2.pageNo =
      st.rootPageNum :: r.2.pageNo :: List.replicate (N-1) 0 := by
    rw [show (List.replicate (N+1) (0:Nat)) = 0 :: 0 :: List.replicate (N-1) 0 by
          rw [← List.replicate_succ, ← List.replicate_succ]; congr 1; omega,
        List.set_cons_zero,
        show (1:Nat) = 0 + 1 from rfl, List.set_cons_succ, List.set_cons_zero]
  constructor
  · intro hsplit
    rw [insertEntry, ← hr, if_pos hsplit]
    refine ⟨rfl, rfl, by simp [setPage, List.length_set], ?_, ?_⟩
    · rw [getPage_setPage_ne _ _ _ _ (by omega)]
      rw [hkeys, hparr, getPage_append_self]
    · rw [getPage_setPage_self _ _ _ (by simp)]
  · intro hsent
    rw [insertEntry, ← hr, if_neg (not_not_intro hsent)]

/-- A small concrete page store with a full leaf at page 1 (L = 4). -/
def wLeafPs : List Node :=
  [.meta 1 true, .leaf [0, 1, 2, 3] (List.replicate 4 ⟨0, 0⟩) MAXPAGE]

/-- Witness for the leaf-split theorem at a concrete full leaf. -/
theorem C2_leaf_split_witness :
    (insertLeaf 4 wLeafPs 1 2 ⟨5, 5⟩).1.length = wLeafPs.length + 1 := by
  obtain ⟨sk, sr, lk, lr, h1, -⟩ :=
    C2_leaf_split 4 wLeafPs 1 2 ⟨5, 5⟩ [0, 1, 2, 3] (List.replicate 4 ⟨0, 0⟩) MAXPAGE
      rfl rfl rfl (by omega) (by decide)
  exact h1

/-- A small concrete page store with a full internal node at page 1 (N = 4). -/
def wNodePs : List Node :=
  [.meta 1 true, .internal [10, 20, 30, 40] [1, 2, 3, 4, 5] 1]

/-- Witness for the internal-split theorem at a concrete full node. -/
theorem C3_node_split_witness :
    (handleChildSplit 4 wNodePs 1 2 ⟨7, 25⟩).1.length = wNodePs.length + 1 := by
  obtain ⟨sk, sp, lk, lp, h1, -⟩ :=
    C3_node_split 4 wNodePs 1 2 ⟨7, 25⟩ [10, 20, 30, 40] [1, 2, 3, 4, 5] 1
      rfl rfl rfl (by omega) (by decide) (by decide) (by omega)
  exact h1

/-- A concrete index whose root leaf is full (L = N = 2). -/
def wFullRoot : BT := insertAll 2 2 (mkIndex 2) [(0, ⟨0, 0⟩), (1, ⟨0, 0⟩)]

/-- Witness for the root-growth theorem: inserting into the full root leaf
grows a new root and clears `rootIsLeaf`. -/
theorem C4_root_growth_witness :
    (insertEntry 2 2 wFullRoot 5 ⟨0, 0⟩).rootIsLeaf = false := by
  obtain ⟨hs, -⟩ := C4_root_growth 2 2 wFullRoot 5 ⟨0, 0⟩ (by omega) (by decide) _ rfl
  exact (hs (by decide)).2.1


/-- Buffer-manager interaction events: pinning a page (`readPage` /
`allocPage`), dereferencing a pinned pointer into a page frame, and
`unPinPage`. -/
inductive Ev where
  | pin (p : Nat) | access (p : Nat) | unpin (p : Nat)
deriving DecidableEq, Repr

/-- The high-bound rejection test of `startScan` / `scanNext`
(btree.cpp lines 639-649 and 688-697): under `LT` the entry must be
`< highValInt`, under `LTE` it must be `≤ highValInt`. -/
def highRejects (hop : Operator) (hi : Int) (x : Int) : Prop :=
  (hop = .LT ∧ hi ≤ x) ∨ (hop = .LTE ∧ hi < x)

instance (hop : Operator) (hi x : Int) : Decidable (highRejects hop hi x) := by
  unfold highRejects; infer_instance

/-- The buffer-manager event trace of the `startScan` descent loop
(btree.cpp lines 603-620), event by event in source order:
`keyArray` reads in the while loop (line 607), `unPinPage` (line 611),
the read of `node->pageNoArray[index]` at line 612 — performed through the
`node` pointer after its page was unpinned —, `readPage` of the child
(line 613), and the read of `node->level` at line 615, again through the
unpinned `node` pointer. -/
def scanDescendEv (ps : List Node) (v : Int) : Nat → Nat → List Ev
  | 0, _ => []
  | fuel+1, p =>
    match getPage ps p with
    | .internal karr parr lvl =>
      [.access p, .unpin p, .access p, .pin (parr.getD (descIdx v karr) 0), .access p]
        ++ (if lvl = 1 then [] else scanDescendEv ps v fuel (parr.getD (descIdx v karr) 0))
    | _ => []

/-- The buffer-manager event trace of `startScan` (btree.cpp lines
562-656): nothing before the argument checks throw; otherwise the root is
pinned (line 597), the descent runs (lines 603-620), the leaf is scanned
(line 626), and on a failing check the leaf is unpinned before throwing
(lines 632-649); on success the leaf pin is retained. -/
def startScanEvents (L : Nat) (st : BT) (lo : Int) (lop : Operator) (hi : Int)
    (hop : Operator) : List Ev :=
  if (lop ≠ .GT ∧ lop ≠ .GTE) ∨ (hop ≠ .LT ∧ hop ≠ .LTE) ∨ lo > hi then []
  else
    let lowV := if lop = .GT then lo + 1 else lo
    let p := if st.rootIsLeaf then st.rootPageNum
             else scanDescend st.pages lowV st.pages.length st.rootPageNum
    [Ev.pin st.rootPageNum]
      ++ (if st.rootIsLeaf then [] else scanDescendEv st.pages lowV st.pages.length st.rootPageNum)
      ++ [Ev.access p]
      ++ (match getPage st.pages p with
          | .leaf karr _ _ =>
            if L ≤ findSlot lowV karr ∨ highRejects hop hi (karr.getD (findSlot lowV karr) MAXK)
            then [Ev.unpin p] else []
          | _ => [])

/-- A trace is well pinned when every frame access and every unpin happens
while the page is held by an unreleased pin. -/
def wellPinnedFrom : List Nat → List Ev → Bool
  | _, [] => true
  | held, .pin p :: tr => wellPinnedFrom (p :: held) tr
  | held, .access p :: tr => decide (p ∈ held) && wellPinnedFrom held tr
  | held, .unpin p :: tr => decide (p ∈ held) && wellPinnedFrom (held.erase p) tr

/-- A small two-level tree: keys 0..4 inserted into a fresh index with
leaf and node occupancy 4; the root (page 3) is internal with separator 2
over leaves `[0,1]` (page 1) and `[2,3,4]` (page 2). -/
def wTree5 : BT :=
  insertAll 4 4 (mkIndex 4) [(0, ⟨0,0⟩), (1, ⟨0,0⟩), (2, ⟨0,0⟩), (3, ⟨0,0⟩), (4, ⟨0,0⟩)]

/-- Modelled from the spec: the descent index at an internal node is the
smallest `i` with `keys[i] > lowVal`, i.e. the count of leading keys
`≤ lowVal` (spec section 4.5, with the unadjusted `lowVal`). -/
def specDescIdx (v : Int) : List Int → Nat
  | [] => 0
  | x :: xs => if x ≤ v then specDescIdx v xs + 1 else 0

/-- Modelled from the spec: descend from the root choosing
`pageNoArray[specDescIdx]` until a node at `level == 1` has been traversed;
its chosen child is the target leaf (spec section 4.5). -/
def scanDescendSpec (ps : List Node) (v : Int) : Nat → Nat → Nat
  | 0, p => p
  | fuel+1, p =>
    match getPage ps p with
    | .internal karr parr lvl =>
      let nextP := parr.getD (specDescIdx v karr) 0
      if lvl = 1 then nextP else scanDescendSpec ps v fuel nextP
    | _ => p

/-- Modelled from the spec: within the leaf, the first slot `i` with
`keys[i] ≥ lowVal`, i.e. the count of leading keys `< lowVal`. -/
def specFirstGE (v : Int) : List Int → Nat
  | [] => 0
  | x :: xs => if x < v then specFirstGE v xs + 1 else 0

/-- Modelled from the spec: from slot `i`, continue advancing while
`keys[i] ≤ lowVal` (the `GT` skip of spec section 4.5), rendered as `i`
plus the length of the run of keys `≤ lowVal` starting at slot `i`. -/
def specSkipLE (v : Int) (karr : List Int) (i : Nat) : Nat :=
  i + ((karr.drop i).takeWhile (fun x => decide (x ≤ v))).length

/-- Modelled from the spec (section 4.5): the whole starting procedure with
the *unadjusted* `lowVal`: operator and range checks, descent by
`specDescIdx`, leaf positioning by first-slot-`≥ lowVal` plus the `GT`
skip, failing with `NoSuchKeyFound` on exiting the occupied range or
violating the high bound; on success the `(leaf page, slot)` position. -/
def startScanSpec (L : Nat) (st : BT) (lo : Int) (lop : Operator) (hi : Int)
    (hop : Operator) : Except BTErr (Nat × Nat) :=
  if (lop ≠ .GT ∧ lop ≠ .GTE) ∨ (hop ≠ .LT ∧ hop ≠ .LTE) then .error .BadOpcodes
  else if lo > hi then .error .BadScanrange
  else
    let p := if st.rootIsLeaf then st.rootPageNum
             else scanDescendSpec st.pages lo st.pages.length st.rootPageNum
    match getPage st.pages p with
    | .leaf karr _ _ =>
      let i0 := specFirstGE lo karr
      let i := if lop = .GT then specSkipLE lo karr i0 else i0
      if L ≤ i ∨ karr.getD i MAXK = MAXK then .error .NoSuchKeyFound
      else if highRejects hop hi (karr.getD i MAXK) then .error .NoSuchKeyFound
      else .ok (p, i)
    | _ => .error .NoSuchKeyFound

/-- C8: `scanNext` fails with `ScanNotInitialized` when no scan is active;
otherwise, at the end of the current leaf (`nextEntry ≥ L` or a `MAX_INT`
slot) it fails with `IndexScanCompleted` if the sibling pointer is the
sentinel and otherwise moves to the right sibling (releasing the current
leaf's pin, pinning the sibling, resetting `nextEntry` to 0); the entry
then in position fails with `IndexScanCompleted` when it violates the high
bound (`≥ highVal` under `LT`, `> highVal` under `LTE`), and otherwise its
rid is emitted and `nextEntry` advances by one.  After `IndexScanCompleted`
the scan stays active and the held leaf pin is released only by `endScan`,
which succeeds rather than raising `ScanNotInitialized`. -/
theorem C8_scanNext (L : Nat) (st : BT) (karr : List Int) (rarr : List RId) (sib : Nat) :
    (st.scanExecuting = false → scanNext L st = .error .ScanNotInitialized) ∧
    (st.scanExecuting = true →
      getPage st.pages st.currentPageNum = .leaf karr rarr sib →
      (((L ≤ st.nextEntry ∨ karr.getD st.nextEntry MAXK = MAXK) ∧ sib = MAXPAGE) →
         scanNext L st = .error .IndexScanCompleted) ∧
      (∀ karr2 rarr2 sib2,
        ((L ≤ st.nextEntry ∨ karr.getD st.nextEntry MAXK = MAXK) ∧ sib ≠ MAXPAGE) →
        getPage st.pages sib = .leaf karr2 rarr2 sib2 →
        (highRejects st.highOp st.highValInt (karr2.getD 0 MAXK) →
           scanNext L st = .error .IndexScanCompleted) ∧
        (¬ highRejects st.highOp st.highValInt (karr2.getD 0 MAXK) →
           scanNext L st = .ok
             ({ st with currentPageNum := sib, nextEntry := 1,
                        pins := (st.pins.erase st.currentPageNum) ++ [sib] },
              rarr2.getD 0 default))) ∧
      ((st.nextEntry < L ∧ karr.getD st.nextEntry MAXK ≠ MAXK) →
        (highRejects st.highOp st.highValInt (karr.getD st.nextEntry MAXK) →
           scanNext L st = .error .IndexScanCompleted) ∧
        (¬ highRejects st.highOp st.highValInt (karr.getD st.nextEntry MAXK) →
           scanNext L st = .ok ({ st with nextEntry := st.nextEntry + 1 },
              rarr.getD st.nextEntry default))) ∧
      endScan st = .ok { st with pins := st.pins.erase st.currentPageNum,
                                 scanExecuting := false }) := by
  constructor
  · intro hoff
    rw [scanNext, if_pos hoff]
  · intro hon hleaf
    have hnot : ¬ st.scanExecuting = false := by rw [hon]; simp
    refine ⟨?_, ?_, ?_, ?_⟩
    · rintro ⟨hend, hsent⟩
      rw [scanNext, if_neg hnot, hleaf]
      simp only []
      rw [if_pos hend, if_pos hsent]
    · rintro karr2 rarr2 sib2 ⟨hend, hsent⟩ hleaf2
      constructor
      · intro hrej
        rw [scanNext, if_neg hnot, hleaf]
        simp only []
        rw [if_pos hend, if_neg hsent, scanEmit]
        simp only [hleaf2]
        rcases hrej with ⟨h1, h2⟩ | ⟨h1, h2⟩
        · rw [if_pos ⟨h1, h2⟩]
        · rw [if_neg (by rw [h1]; rintro ⟨h, -⟩; exact Operator.noConfusion h),
              if_pos ⟨h1, h2⟩]
      · intro hok
        rw [scanNext, if_neg hnot, hleaf]
        simp only []
        rw [if_pos hend, if_neg hsent, scanEmit]
        simp only [hleaf2]
        rw [if_neg (fun h => hok (Or.inl h)), if_neg (fun h => hok (Or.inr h))]
    · rintro ⟨hlt, hocc⟩
      have hnend : ¬ (L ≤ st.nextEntry ∨ karr.getD st.nextEntry MAXK = MAXK) := by
        rintro (h | h)
        · omega
        · exact hocc h
      constructor
      · intro hrej
        rw [scanNext, if_neg hnot, hleaf]
        simp only []
        rw [if_neg hnend, scanEmit]
        simp only [hleaf]
        rcases hrej with ⟨h1, h2⟩ | ⟨h1, h2⟩
        · rw [if_pos ⟨h1, h2⟩]
        · rw [if_neg (by rw [h1]; rintro ⟨h, -⟩; exact Operator.noConfusion h),
              if_pos ⟨h1, h2⟩]
      · intro hok
        rw [scanNext, if_neg hnot, hleaf]
        simp only []
        rw [if_neg hnend, scanEmit]
        simp only [hleaf]
        rw [if_neg (fun h => hok (Or.inl h)), if_neg (fun h => hok (Or.inr h))]
    · rw [endScan, if_neg hnot]

/-- A concrete active scan over a two-entry leaf (L = 2), high bound 10. -/
def wScanSt : BT :=
  { pages := [.meta 1 true, .leaf [1, 2] (List.replicate 2 ⟨0, 0⟩) MAXPAGE],
    rootPageNum := 1, rootIsLeaf := true, scanExecuting := true,
    nextEntry := 0, currentPageNum := 1, lowValInt := 0, highValInt := 10,
    lowOp := .GTE, highOp := .LT, pins := [1] }

/-- Witness: on the concrete active scan, `scanNext` emits the first rid and
advances. -/
theorem C8_scanNext_witness :
    scanNext 2 wScanSt = .ok ({ wScanSt with nextEntry := 1 }, ⟨0, 0⟩) := by
  obtain ⟨-, h⟩ := C8_scanNext 2 wScanSt [1, 2] (List.replicate 2 ⟨0, 0⟩) MAXPAGE
  obtain ⟨-, -, h3, -⟩ := h rfl rfl
  exact (h3 (by decide)).2 (by decide)

/-- C7 counterexample: on a freshly created empty index (`L = 2`), a scan
with `highOp = LTE` and `highVal = MAX_INT` succeeds positioned at the
sentinel slot, although the first candidate slot is outside the occupied
range (its key is `MAX_INT`), where the claim demands `NoSuchKeyFound`. -/
theorem C7_counterexample :
    startScan 2 (mkIndex 2) 0 Operator.GTE MAXK Operator.LTE =
      .ok { mkIndex 2 with
              scanExecuting := true, nextEntry := 0, currentPageNum := 1,
              lowValInt := 0, highValInt := MAXK, lowOp := .GTE, highOp := .LTE,
              pins := [1] } ∧
    getPage (mkIndex 2).pages 1 =
      .leaf [MAXK, MAXK] (List.replicate 2 ⟨0, 0⟩) MAXPAGE := by
  constructor
  · rfl
  · rfl

/-- C7 (amended): `startScan` fails with `BadOpcodes` exactly when
`lowOp ∉ {GT, GTE}` or `highOp ∉ {LT, LTE}` (checked first); with valid
operators it fails with `BadScanrange` exactly when `lowVal > highVal` on
the unadjusted values; with valid operators and `lowVal ≤ highVal` it fails
with `NoSuchKeyFound` exactly when, in the target leaf, the first candidate
slot index reaches `L` or the key found there (including a `MAX_INT`
sentinel slot) violates the high bound (`≥ highVal` under `LT`, `> highVal`
under `LTE`); otherwise it succeeds, recording the slot and pinning the
leaf.  While no scan is active, `scanNext` and `endScan` raise
`ScanNotInitialized`, and a failed `startScan` leaves the scan inactive
with no retained pin. -/
theorem C7_startScan_errors (L : Nat) (st : BT) (lo hi : Int) (lop hop : Operator)
    (p : Nat) (karr : List Int) (rarr : List RId) (sib : Nat)
    (hpdef : p = (if st.rootIsLeaf then st.rootPageNum
                  else scanDescend st.pages (if lop = .GT then lo + 1 else lo)
                         st.pages.length st.rootPageNum))
    (hleaf : getPage st.pages p = .leaf karr rarr sib) :
    (((lop ≠ .GT ∧ lop ≠ .GTE) ∨ (hop ≠ .LT ∧ hop ≠ .LTE)) →
        startScan L st lo lop hi hop = .error .BadOpcodes) ∧
    ((lop = .GT ∨ lop = .GTE) → (hop = .LT ∨ hop = .LTE) → lo > hi →
        startScan L st lo lop hi hop = .error .BadScanrange) ∧
    ((lop = .GT ∨ lop = .GTE) → (hop = .LT ∨ hop = .LTE) → lo ≤ hi →
      ((L ≤ findSlot (if lop = .GT then lo + 1 else lo) karr ∨
        highRejects hop hi
          (karr.getD (findSlot (if lop = .GT then lo + 1 else lo) karr) MAXK)) →
          startScan L st lo lop hi hop = .error .NoSuchKeyFound) ∧
      (¬ (L ≤ findSlot (if lop = .GT then lo + 1 else lo) karr ∨
          highRejects hop hi
            (karr.getD (findSlot (if lop = .GT then lo + 1 else lo) karr) MAXK)) →
          startScan L st lo lop hi hop = .ok { st with
            scanExecuting := true,
            nextEntry := findSlot (if lop = .GT then lo + 1 else lo) karr,
            currentPageNum := p,
            lowValInt := (if lop = .GT then lo + 1 else lo), highValInt := hi,
            lowOp := lop, highOp := hop, pins := st.pins ++ [p] })) ∧
    (st.scanExecuting = false →
        scanNext L st = .error .ScanNotInitialized ∧
        endScan st = .error .ScanNotInitialized) := by
  refine ⟨?_, ?_, ?_, ?_⟩
  · rintro (⟨h1, h2⟩ | ⟨h1, h2⟩)
    · rw [startScan, if_pos ⟨h1, h2⟩]
    · rw [startScan]
      by_cases hl : lop ≠ .GT ∧ lop ≠ .GTE
      · rw [if_pos hl]
      · rw [if_neg hl, if_pos ⟨h1, h2⟩]
  · intro hlop hhop hrange
    have hl : ¬ (lop ≠ .GT ∧ lop ≠ .GTE) := by
      rcases hlop with h | h <;> rw [h] <;> rintro ⟨h1, h2⟩ <;> simp_all
    have hh : ¬ (hop ≠ .LT ∧ hop ≠ .LTE) := by
      rcases hhop with h | h <;> rw [h] <;> rintro ⟨h1, h2⟩ <;> simp_all
    rw [startScan, if_neg hl, if_neg hh, if_pos hrange]
  · intro hlop hhop hrange
    have hl : ¬ (lop ≠ .GT ∧ lop ≠ .GTE) := by
      rcases hlop with h | h <;> rw [h] <;> rintro ⟨h1, h2⟩ <;> simp_all
    have hh : ¬ (hop ≠ .LT ∧ hop ≠ .LTE) := by
      rcases hhop with h | h <;> rw [h] <;> rintro ⟨h1, h2⟩ <;> simp_all
    constructor
    · rintro (hL | hrej)
      · rw [startScan, if_neg hl, if_neg hh, if_neg (by omega)]
        simp only [← hpdef, hleaf]
        rw [if_pos hL]
      · rw [startScan, if_neg hl, if_neg hh, if_neg (by omega)]
        simp only [← hpdef, hleaf]
        by_cases hL : L ≤ findSlot (if lop = .GT then lo + 1 else lo) karr
        · rw [if_pos hL]
        · rw [if_neg hL]
          rcases hrej with ⟨h1, h2⟩ | ⟨h1, h2⟩
          · rw [if_pos ⟨h1, h2⟩]
          · rw [if_neg (by rw [h1]; rintro ⟨h, -⟩; exact Operator.noConfusion h),
                if_pos ⟨h1, h2⟩]
    · intro hok
      rw [startScan, if_neg hl, if_neg hh, if_neg (by omega)]
      simp only [← hpdef, hleaf]
      rw [if_neg (fun h => hok (Or.inl h)),
          if_neg (fun h => hok (Or.inr (Or.inl h))),
          if_neg (fun h => hok (Or.inr (Or.inr h)))]
  · intro hoff
    constructor
    · rw [scanNext, if_pos hoff]
    · rw [endScan, if_pos hoff]

/-- Witness: invalid low operator on a concrete index yields `BadOpcodes`. -/
theorem C7_startScan_errors_witness :
    startScan 2 (mkIndex 2) 5 Operator.LT 10 Operator.LT = .error .BadOpcodes := by
  obtain ⟨hA, -⟩ := C7_startScan_errors 2 (mkIndex 2) 5 10 .LT .LT 1
    [MAXK, MAXK] (List.replicate 2 ⟨0, 0⟩) MAXPAGE rfl rfl
  exact hA (Or.inl ⟨by decide, by decide⟩)

/-- C9: the pin discipline is violated by the code: on the concrete
two-level tree, `startScan`'s descent reads `node->pageNoArray[index]`
(btree.cpp line 612) and `node->level` (line 615) through a pointer into a
page that was unpinned at line 611, so the event trace of the scan is not
well pinned (an access of page 3 occurs after its pin was released). -/
theorem C9_use_after_unpin :
    wellPinnedFrom [] (startScanEvents 4 wTree5 1 Operator.GTE 10 Operator.LT) = false := by
  decide

theorem takeWhileLE_findSlot (v : Int) : ∀ (xs : List Int),
    ((xs.takeWhile fun a => decide (a ≤ v)).length) = findSlot (v+1) xs
  | [] => rfl
  | x :: xs => by
    rw [findSlot, List.takeWhile_cons]
    by_cases h : x ≤ v
    · rw [if_pos (by simpa using h), if_pos (by omega)]
      simp [takeWhileLE_findSlot v xs]
    · rw [if_neg (by simpa using h), if_neg (by omega)]
      rfl

theorem specFirstGE_eq_findSlot (v : Int) : ∀ (xs : List Int),
    specFirstGE v xs = findSlot v xs
  | [] => rfl
  | x :: xs => by
    rw [specFirstGE, findSlot, specFirstGE_eq_findSlot v xs]

theorem skip_findSlot (v : Int) : ∀ (karr : List Int),
    specSkipLE v karr (specFirstGE v karr) = findSlot (v+1) karr
  | [] => rfl
  | x :: xs => by
    rw [specFirstGE, findSlot]
    by_cases h : x < v
    · rw [if_pos h, if_pos (by omega), specSkipLE, List.drop_succ_cons]
      have := skip_findSlot v xs
      rw [specSkipLE] at this
      omega
    · rw [if_neg h, specSkipLE, List.drop_zero, List.takeWhile_cons]
      by_cases h2 : x ≤ v
      · rw [if_pos (by simpa using h2), if_pos (by omega)]
        simp [takeWhileLE_findSlot v xs]
      · rw [if_neg (by simpa using h2), if_neg (by omega)]
        rfl

/-- C6 counterexample: on the two-level tree with separator 2 over leaves
`[0,1]` and `[2,3,4]`, the scan `(1, GT, 10, LT)` succeeds in the code
(normalized to a GTE scan on 2, descending to the right leaf, starting at
key 2), while the spec's descend-then-skip procedure on the unadjusted
bound descends to the left leaf, skips past its occupied range, and fails
with `NoSuchKeyFound`: the two do not designate the same starting entry. -/
theorem C6_counterexample :
    startScan 4 wTree5 1 Operator.GT 10 Operator.LT =
      .ok { wTree5 with
              scanExecuting := true, nextEntry := 0, currentPageNum := 2,
              lowValInt := 2, highValInt := 10, lowOp := .GT, highOp := .LT,
              pins := [2] } ∧
    startScanSpec 4 wTree5 1 Operator.GT 10 Operator.LT = .error .NoSuchKeyFound := by
  constructor
  · rfl
  · rfl

/-- C6 (amended): for valid low operators, a successful `startScan` records
exactly the position obtained by descending with the effective bound
`lowVal' = lowVal + 1` for `GT` (else `lowVal`) and then applying the
spec's in-leaf procedure — first slot with `keys[i] ≥ lowVal`, then for
`GT` the skip over keys `≤ lowVal`: the code's normalization of `GT` to a
GTE scan on `lowVal + 1` computes that same starting entry.  (With the
descent taken on the unadjusted `lowVal`, as the claim stated it, the
equivalence fails; see the counterexample.) -/
theorem C6_startScan_pos (L : Nat) (st : BT) (lo hi : Int) (lop hop : Operator)
    (p : Nat) (karr : List Int) (rarr : List RId) (sib : Nat) (st' : BT)
    (hpdef : p = (if st.rootIsLeaf then st.rootPageNum
                  else scanDescend st.pages (if lop = .GT then lo + 1 else lo)
                         st.pages.length st.rootPageNum))
    (hleaf : getPage st.pages p = .leaf karr rarr sib)
    (hok : startScan L st lo lop hi hop = .ok st') :
    st'.currentPageNum = p ∧
    st'.nextEntry =
      (if lop = .GT then specSkipLE lo karr (specFirstGE lo karr)
       else specFirstGE lo karr) := by
  rw [startScan] at hok
  try simp only [] at hok
  rw [← hpdef, hleaf] at hok
  try simp only [] at hok
  split_ifs at hok <;> try exact Except.noConfusion hok
  all_goals rcases Except.ok.inj hok with rfl
  all_goals refine ⟨rfl, ?_⟩
  all_goals split_ifs with hg
  all_goals first
    | exact (skip_findSlot lo karr).symm
    | exact (specFirstGE_eq_findSlot lo karr).symm
    | exact absurd ‹lop = Operator.GT› ‹¬ lop = Operator.GT›

/-- Witness: the concrete successful scan `(1, GT, 10, LT)` on the
two-level tree starts at the position the amended procedure computes. -/
theorem C6_startScan_pos_witness :
    ({ wTree5 with
         scanExecuting := true, nextEntry := 0, currentPageNum := 2,
         lowValInt := 2, highValInt := 10, lowOp := .GT, highOp := .LT,
         pins := [2] } : BT).currentPageNum = 2 ∧
    ({ wTree5 with
         scanExecuting := true, nextEntry := 0, currentPageNum := 2,
         lowValInt := 2, highValInt := 10, lowOp := .GT, highOp := .LT,
         pins := [2] } : BT).nextEntry =
      specSkipLE 1 [2, 3, 4, MAXK] (specFirstGE 1 [2, 3, 4, MAXK]) := by
  have h := C6_startScan_pos 4 wTree5 1 10 .GT .LT 2 [2, 3, 4, MAXK]
    (List.replicate 4 ⟨0, 0⟩) MAXPAGE
    { wTree5 with
        scanExecuting := true, nextEntry := 0, currentPageNum := 2,
        lowValInt := 2, highValInt := 10, lowOp := .GT, highOp := .LT,
        pins := [2] } rfl rfl rfl
  exact ⟨h.1, h.2.trans (if_pos rfl)⟩

end BadgerBT
